import Mathlib

/-
Verification of the `human_match` name-matching engine.

This file gives a shallow embedding, in Lean 4, of the scoring and
segmentation logic of the repository (`matcher.py`, `utils.py`,
`data_loader.py` and the per-language modules), and proves or refutes the
behavioural claims made about it.  Python floats are modelled by `ℚ`
(all constants involved are exact decimal fractions), Python strings by
`String`/`List Char`, and Python dicts by association lists or functions.
External third-party libraries (jellyfish, phonetics, nameparser) are not
part of the repository; where a claim depends on them they are abstracted
as parameters, constrained only by their documented contracts.
-/

namespace HumanMatch

/-! ## Composite scorer (`NameMatcher._calculate_composite_score`) -/

/-- The set of component similarity scores that `_calculate_all_scores`
produces and the composite scorer consumes.  Field names follow the keys of
the Python `scores` dict. -/
structure Scores where
  whole_name : ℚ
  first_name : ℚ
  last_name : ℚ
  middle_name : ℚ
  phonetic : ℚ
  length_penalty : ℚ
deriving DecidableEq

/-- Cap selection step of `_calculate_composite_score` (matcher.py lines
544-558), with the default `CompositeScoreParams`:
`very_low_cap_threshold = 0.4`, `low_cap_threshold = 0.35`,
`medium_cap_threshold = 0.3`, caps `0.4 / 0.4 / 0.5 / 1.0`, and
`MatchThresholds.low_score_threshold = 0.6`,
`medium_score_threshold = 0.7`. -/
def selectCap (whole first last : ℚ) : ℚ :=
  if whole < 2/5 ∧ first < 3/5 ∧ last < 3/5 then 2/5
  else if whole < 7/20 then 2/5
  else if whole < 3/10 ∧ (first < 7/10 ∨ last < 7/10) then 1/2
  else 1

/-- Cap selection as described by the specification text (claim C1):
`whole<0.30` and both `first`,`last<0.60` gives cap `0.40`; otherwise
`whole<0.35` gives cap `0.40`; otherwise `whole<0.40` with `first<0.70` or
`last<0.70` gives cap `0.50`; otherwise `1.0`.  Written from the spec's
words, to be compared against `selectCap`. -/
def specCapSelect (whole first last : ℚ) : ℚ :=
  if whole < 3/10 ∧ first < 3/5 ∧ last < 3/5 then 2/5
  else if whole < 7/20 then 2/5
  else if whole < 2/5 ∧ (first < 7/10 ∨ last < 7/10) then 1/2
  else 1

/-- Adaptive weight selection of `_calculate_composite_score` (matcher.py
lines 562-623).  Returns `(first, last, middle, phonetic)` weights; the
four booleans say whether each side has a nonempty first/last component. -/
def selectWeights (hasFirst1 hasLast1 hasFirst2 hasLast2 : Bool)
    (first last phonetic : ℚ) : ℚ × ℚ × ℚ × ℚ :=
  if (!hasFirst1 && hasLast1) || (hasFirst1 && !hasLast1) ||
      (!hasFirst2 && hasLast2) || (hasFirst2 && !hasLast2) then
    if hasFirst1 && hasFirst2 then (3/5, 0, 0, 2/5)
    else if hasLast1 && hasLast2 then (0, 3/5, 0, 2/5)
    else (3/10, 3/10, 0, 2/5)
  else
    if (first < 7/10 ∧ last < 7/10) ∧ phonetic > 7/10 then (1/4, 1/4, 1/10, 2/5)
    else if phonetic > 47/50 then (1/4, 1/4, 1/10, 2/5)
    else (7/20, 7/20, 3/20, 3/20)

/-- The weighted sum `sum(scores[component] * weight)` over the weight dict,
in its insertion order first/last/middle/phonetic. -/
def weightedSum (s : Scores) (w : ℚ × ℚ × ℚ × ℚ) : ℚ :=
  s.first_name * w.1 + s.last_name * w.2.1 + s.middle_name * w.2.2.1 +
    s.phonetic * w.2.2.2

/-- Penalty multipliers of `_calculate_composite_score` (matcher.py lines
631-646): first matching branch wins, thresholds `0.3 / 0.5 / 0.7`,
multipliers `0.4 / 0.6 / 0.75`. -/
def applyPenalty (first last c : ℚ) : ℚ :=
  if first < 3/10 ∧ last < 3/10 then c * (2/5)
  else if first < 1/2 ∧ last < 1/2 then c * (3/5)
  else if first < 7/10 ∧ last < 7/10 then c * (3/4)
  else c

/-- Threshold boost bands of `_calculate_composite_score` (matcher.py lines
651-666): an `if`/`elif` chain over ranges `[0.87,0.90)`, `[0.905,0.95)`,
`[0.943,0.95)` with targets/multipliers `0.905 ×1.025`, `0.96 ×1.04`,
`0.96 ×1.01`. -/
def applyBoosts (c : ℚ) : ℚ :=
  if 87/100 ≤ c ∧ c < 9/10 then min (181/200) (c * (41/40))
  else if 181/200 ≤ c ∧ c < 19/20 then min (24/25) (c * (26/25))
  else if 943/1000 ≤ c ∧ c < 19/20 then min (24/25) (c * (101/100))
  else c

/-- The boost bands as described by the specification text (claim C2):
the same three windows, but with the last applicable band winning, so that
the `[0.943,0.95)` band maps its whole window to `min(0.96, ×1.01)`.
Written from the spec's words, to be compared against `applyBoosts`. -/
def specBoostBands (c : ℚ) : ℚ :=
  if 943/1000 ≤ c ∧ c < 19/20 then min (24/25) (c * (101/100))
  else if 181/200 ≤ c ∧ c < 19/20 then min (24/25) (c * (26/25))
  else if 87/100 ≤ c ∧ c < 9/10 then min (181/200) (c * (41/40))
  else c

/-- Full composite score calculation `_calculate_composite_score`
(matcher.py lines 529-668): weighted sum, clamp to the selected cap,
penalty multipliers, length-penalty multiplication, boost bands. -/
def calculateCompositeScore (s : Scores) (hf1 hl1 hf2 hl2 : Bool) : ℚ :=
  applyBoosts
    (applyPenalty s.first_name s.last_name
      (min (weightedSum s (selectWeights hf1 hl1 hf2 hl2 s.first_name s.last_name s.phonetic))
        (selectCap s.whole_name s.first_name s.last_name)) * s.length_penalty)

/-! ### Helper lemmas for the composite scorer -/

lemma applyPenalty_le_of_low (first last c : ℚ) (hf : first < 3/5)
    (hl : last < 3/5) (hc : c ≤ 2/5) : applyPenalty first last c ≤ 3/10 := by
  unfold applyPenalty
  split_ifs with h1 h2 h3
  · linarith
  · linarith
  · linarith
  · exact absurd ⟨by linarith, by linarith⟩ h3

lemma mul_lengthPenalty_le (c lp bound : ℚ) (hc : c ≤ bound) (hb : 0 ≤ bound)
    (h0 : 0 ≤ lp) (h1 : lp ≤ 1) : c * lp ≤ bound := by
  rcases le_or_lt 0 c with h | h
  · have := mul_le_mul_of_nonneg_left h1 h
    rw [mul_one] at this
    linarith
  · have := mul_le_mul_of_nonneg_right (le_of_lt h) h0
    rw [zero_mul] at this
    linarith

lemma applyBoosts_of_small (c : ℚ) (h : c < 87/100) : applyBoosts c = c := by
  unfold applyBoosts
  have h1 : ¬((87/100 : ℚ) ≤ c ∧ c < 9/10) := by rintro ⟨h1, -⟩; linarith
  have h2 : ¬((181/200 : ℚ) ≤ c ∧ c < 19/20) := by rintro ⟨h2, -⟩; linarith
  have h3 : ¬((943/1000 : ℚ) ≤ c ∧ c < 19/20) := by rintro ⟨h3, -⟩; linarith
  rw [if_neg h1, if_neg h2, if_neg h3]

/-! ### Claim C1: cap selection -/

/-- C1 counterexample: at `whole_name = 0.37`, `first_name = last_name = 0.5`
the code selects cap `0.40` (its first branch tests `whole < 0.40`, not
`whole < 0.30`), while the claimed rule selects `0.50`. -/
theorem selectCap_claim_counterexample :
    selectCap (37/100) (1/2) (1/2) = 2/5 ∧
      specCapSelect (37/100) (1/2) (1/2) = 1/2 ∧
      selectCap (37/100) (1/2) (1/2) ≠ specCapSelect (37/100) (1/2) (1/2) := by
  refine ⟨?_, ?_, ?_⟩ <;> norm_num [selectCap, specCapSelect]

/-- C1 (amended): the cap is `0.40` when `whole_name < 0.40` and both
`first_name < 0.60` and `last_name < 0.60`; otherwise `0.40` when
`whole_name < 0.35`; otherwise `1.0`.  The code's `0.50` branch, guarded by
`whole_name < 0.30` after `whole_name < 0.35` has already failed, can never
apply. -/
theorem selectCap_amended (whole first last : ℚ) :
    selectCap whole first last =
      if whole < 2/5 ∧ first < 3/5 ∧ last < 3/5 then 2/5
      else if whole < 7/20 then 2/5
      else 1 := by
  unfold selectCap
  split_ifs with h1 h2 h3
  · rfl
  · rfl
  · exact absurd h3.1 (by linarith)
  · rfl

/-! ### Claim C2: boost bands -/

/-- C2 counterexample: at a post-penalty score of `0.945 ∈ [0.943, 0.95)`
the code's `if`/`elif` chain applies the second band, giving
`min(0.96, 0.945 × 1.04) = 0.96`, not the claimed last-band value
`min(0.96, 0.945 × 1.01) = 0.95445`. -/
theorem applyBoosts_claim_counterexample :
    applyBoosts (189/200) = 24/25 ∧
      specBoostBands (189/200) = 19089/20000 ∧
      applyBoosts (189/200) ≠ specBoostBands (189/200) := by
  refine ⟨?_, ?_, ?_⟩ <;> norm_num [applyBoosts, specBoostBands, min_def]

/-- C2 (amended): the bands are tested in order `[0.87,0.90)`,
`[0.905,0.95)`, `[0.943,0.95)` and the FIRST applicable band wins; since
`[0.943,0.95) ⊆ [0.905,0.95)`, the third band is unreachable and every
score in `[0.943,0.95)` is mapped by the second band to
`min(0.96, score × 1.04)`. -/
theorem applyBoosts_amended (c : ℚ) :
    applyBoosts c =
      if 87/100 ≤ c ∧ c < 9/10 then min (181/200) (c * (41/40))
      else if 181/200 ≤ c ∧ c < 19/20 then min (24/25) (c * (26/25))
      else c := by
  unfold applyBoosts
  split_ifs with h1 h2 h3
  · rfl
  · rfl
  · rcases not_and_or.1 h2 with h | h
    · exact absurd h3.1 (by rw [not_le] at h; intro hc; linarith)
    · exact absurd h3.2 h
  · rfl

/-! ### Claim C3: cap enforcement -/

/-- C3: whenever `whole_name < 0.30` and both `first_name < 0.60` and
`last_name < 0.60`, the composite confidence (after weighting, cap,
penalties, length penalty and boost bands) is at most `0.40`, whatever the
phonetic and middle-name scores are and whatever the structural flags are.
Only the length penalty needs its invariant `0 ≤ lp ≤ 1`. -/
theorem composite_cap_enforced (s : Scores) (hf1 hl1 hf2 hl2 : Bool)
    (hlp0 : 0 ≤ s.length_penalty) (hlp1 : s.length_penalty ≤ 1)
    (hw : s.whole_name < 3/10) (hf : s.first_name < 3/5)
    (hl : s.last_name < 3/5) :
    calculateCompositeScore s hf1 hl1 hf2 hl2 ≤ 2/5 := by
  unfold calculateCompositeScore
  have hcap : selectCap s.whole_name s.first_name s.last_name = 2/5 := by
    unfold selectCap
    rw [if_pos ⟨by linarith, hf, hl⟩]
  rw [hcap]
  have h1 : min (weightedSum s (selectWeights hf1 hl1 hf2 hl2 s.first_name
      s.last_name s.phonetic)) (2/5) ≤ 2/5 := min_le_right _ _
  have h2 := applyPenalty_le_of_low s.first_name s.last_name _ hf hl h1
  have h3 := mul_lengthPenalty_le _ s.length_penalty (3/10) h2 (by norm_num)
    hlp0 hlp1
  rw [applyBoosts_of_small _ (by linarith)]
  linarith

/-- C3 witness at a concrete score set. -/
theorem composite_cap_enforced_witness :
    calculateCompositeScore ⟨1/5, 1/2, 1/2, 1/2, 1, 1⟩ true true true true ≤ 2/5 :=
  composite_cap_enforced ⟨1/5, 1/2, 1/2, 1/2, 1, 1⟩ true true true true
    (by norm_num) (by norm_num) (by norm_num) (by norm_num) (by norm_num)

/-! ## String primitives

Python strings are modelled through their character lists (`String.data`);
`str.lower`, `str.strip`, `str.replace` and `str.split()` are embedded as
the corresponding structural list operations. -/

/-- Python `str.lower()` (character-wise lowercasing). -/
def lowerStr (s : String) : String := ⟨s.data.map Char.toLower⟩

/-- Python `str.strip()` on a character list. -/
def trimChars (l : List Char) : List Char :=
  ((l.dropWhile Char.isWhitespace).reverse.dropWhile Char.isWhitespace).reverse

/-- Python `str.strip()`. -/
def trimStr (s : String) : String := ⟨trimChars s.data⟩

/-- Fuel-driven core of Python `str.replace`: replaces every non-overlapping
occurrence of the pattern `p :: ps`, scanning left to right and resuming
after each replacement.  The fuel starts at the list length, which every
step stays below. -/
def replaceCharsAux (p : Char) (ps repl : List Char) : ℕ → List Char → List Char
  | 0, l => l
  | _ + 1, [] => []
  | n + 1, c :: rest =>
    if (p :: ps).isPrefixOf (c :: rest) then
      repl ++ replaceCharsAux p ps repl n (rest.drop ps.length)
    else c :: replaceCharsAux p ps repl n rest

/-- Python `s.replace(pat, repl)` (with the empty pattern unused by the
embedded code and mapped to the identity). -/
def pyReplace (s pat repl : String) : String :=
  match pat.data with
  | [] => s
  | p :: ps => ⟨replaceCharsAux p ps repl.data s.data.length s.data⟩

/-- Core of Python `str.split()` with no argument: maximal runs of
non-whitespace characters, empty pieces discarded.  `acc` holds the
current word reversed. -/
def wordsAux : List Char → List Char → List (List Char)
  | [], acc => if acc = [] then [] else [acc.reverse]
  | c :: rest, acc =>
    if c.isWhitespace then
      if acc = [] then wordsAux rest [] else acc.reverse :: wordsAux rest []
    else wordsAux rest (c :: acc)

/-- Python `s.split()`. -/
def pyWords (s : String) : List String := (wordsAux s.data []).map String.mk

/-- Python `" ".join(words)`. -/
def joinWords (ws : List String) : String := String.intercalate " " ws

/-- Python `s[0]` on a nonempty string (all uses are guarded by nonemptiness
checks, the default is never reached). -/
def strFirst (s : String) : Char := s.data.headD ' '

/-! ## Middle-name comparison (`NameMatcher._compare_middle_names`) -/

/-- `_compare_middle_names` (matcher.py lines 854-876), with the default
`MiddleNameParams` (`both_empty_score 0.5`, `one_empty_score 0.0`,
`initial_match_score 1.0`, `initial_no_match_score 0.0`).  The string
distance primitive (jellyfish Jaro-Winkler behind `calculate_distance`) is
abstracted as the parameter `dist`. -/
def compareMiddleNames (dist : String → String → ℚ) (m1 m2 : String) : ℚ :=
  if m1 = "" ∨ m2 = "" then (if m1 = "" ∧ m2 = "" then 1/2 else 0)
  else if m1.data.length = 1 ∧ 1 < m2.data.length then
    (if lowerStr m1 = lowerStr (String.singleton (strFirst m2)) then 1 else 0)
  else if m2.data.length = 1 ∧ 1 < m1.data.length then
    (if lowerStr m2 = lowerStr (String.singleton (strFirst m1)) then 1 else 0)
  else dist m1 m2

/-- Middle-name comparison as described by claim C10: `0.5` when both are
empty, `0.0` when exactly one is empty, initial-vs-name comparison by the
case-insensitive first character, otherwise the string distance.  Written
from the spec's words, to be compared against `compareMiddleNames`. -/
def specCompareMiddleNames (dist : String → String → ℚ) (m1 m2 : String) : ℚ :=
  if m1 = "" ∧ m2 = "" then 1/2
  else if m1 = "" ∨ m2 = "" then 0
  else if m1.data.length = 1 ∧ 1 < m2.data.length then
    (if (strFirst m1).toLower = (strFirst m2).toLower then 1 else 0)
  else if m2.data.length = 1 ∧ 1 < m1.data.length then
    (if (strFirst m2).toLower = (strFirst m1).toLower then 1 else 0)
  else dist m1 m2

lemma lowerStr_singleton_eq (m : String) (c : Char) (hm : m.data.length = 1) :
    lowerStr m = lowerStr (String.singleton c) ↔ (strFirst m).toLower = c.toLower := by
  obtain ⟨a, ha⟩ := List.length_eq_one.1 hm
  obtain ⟨l⟩ := m
  simp only at ha
  subst ha
  simp [lowerStr, String.singleton, strFirst, String.ext_iff]

/-! ### Claim C10: middle-name comparison -/

/-- C10: `_compare_middle_names` returns `0.5` when both middle names are
empty, `0.0` when exactly one is empty, matches a one-character initial
against the other name's first character case-insensitively (`1.0`/`0.0`),
and otherwise falls back to the string-distance similarity. -/
theorem compareMiddleNames_eq_spec (dist : String → String → ℚ) (m1 m2 : String) :
    compareMiddleNames dist m1 m2 = specCompareMiddleNames dist m1 m2 := by
  unfold compareMiddleNames specCompareMiddleNames
  by_cases h1 : m1 = "" <;> by_cases h2 : m2 = ""
  · simp [h1, h2]
  · simp [h1, h2]
  · simp [h1, h2]
  · have hor : ¬(m1 = "" ∨ m2 = "") := by tauto
    have hand : ¬(m1 = "" ∧ m2 = "") := by tauto
    simp only [if_neg hor, if_neg hand]
    by_cases hlen1 : m1.data.length = 1 ∧ 1 < m2.data.length
    · simp only [if_pos hlen1]
      exact if_congr (lowerStr_singleton_eq m1 _ hlen1.1) rfl rfl
    · simp only [if_neg hlen1]
      by_cases hlen2 : m2.data.length = 1 ∧ 1 < m1.data.length
      · simp only [if_pos hlen2]
        exact if_congr (lowerStr_singleton_eq m2 _ hlen2.1) rfl rfl
      · simp only [if_neg hlen2]

/-! ## Statistical whole-name similarity (`calculate_statistical_similarity`) -/

/-- Character-set Jaccard overlap (`utils.py` lines 94-96): the guard mirrors
`if chars1 | chars2 else 0`. -/
def charOverlapRatioQ (l1 l2 : List Char) : ℚ :=
  if l1.toFinset ∪ l2.toFinset = ∅ then 0
  else ((l1.toFinset ∩ l2.toFinset).card : ℚ) / ((l1.toFinset ∪ l2.toFinset).card : ℚ)

/-- Bigram set of a character list (`utils.py` lines 108-109): the set of
adjacent character pairs. -/
def bigrams (l : List Char) : Finset (Char × Char) := (l.zip l.tail).toFinset

/-- Bigram-set Jaccard overlap (`utils.py` lines 110-114). -/
def bigramOverlapRatioQ (l1 l2 : List Char) : ℚ :=
  if bigrams l1 ∪ bigrams l2 = ∅ then 0
  else ((bigrams l1 ∩ bigrams l2).card : ℚ) / ((bigrams l1 ∪ bigrams l2).card : ℚ)

/-- Position-weighted character match accumulator (`utils.py` lines 99-104):
over common positions `i`, adds `1 - i / max(max_len, 10)` when the
characters agree. -/
def posWeightSum : List Char → List Char → ℕ → ℕ → ℚ
  | c1 :: r1, c2 :: r2, i, m =>
    (if c1 = c2 then 1 - (i : ℚ) / ((max m 10 : ℕ) : ℚ) else 0) +
      posWeightSum r1 r2 (i + 1) m
  | _, _, _, _ => 0

/-- Python `name.lower().strip()` as used to normalize both inputs of
`calculate_statistical_similarity`. -/
def normName (s : String) : String := trimStr (lowerStr s)

/-- `calculate_statistical_similarity` (`utils.py` lines 63-156).  The two
external jellyfish primitives are abstracted: `lev` is
`levenshtein_distance` (a natural number) and `jw` is
`jaro_winkler_similarity`. -/
def calculateStatisticalSimilarity (lev : String → String → ℕ)
    (jw : String → String → ℚ) (name1 name2 : String) : ℚ :=
  if name1 = "" ∨ name2 = "" then 0
  else if normName name1 = normName name2 then 1
  else if max (normName name1).data.length (normName name2).data.length = 0 then 1
  else
    let n1 := normName name1
    let n2 := normName name2
    let maxLen := max n1.data.length n2.data.length
    let minLen := min n1.data.length n2.data.length
    let lengthQuot : ℚ := (minLen : ℚ) / (maxLen : ℚ)
    let lengthFactor : ℚ := 1/2 + lengthQuot * (1/2)
    let charOverlap := charOverlapRatioQ n1.data n2.data
    let positional : ℚ :=
      if 0 < minLen then posWeightSum n1.data n2.data 0 maxLen / (minLen : ℚ) else 0
    let bigramOverlap := bigramOverlapRatioQ n1.data n2.data
    let editSim : ℚ := 1 - (lev n1 n2 : ℚ) / (maxLen : ℚ)
    let jwSim := jw n1 n2
    let combined := (3/20) * lengthFactor + (1/5) * charOverlap + (1/4) * positional
      + (3/20) * bigramOverlap + (3/20) * editSim + (1/10) * jwSim
    let combined2 := if maxLen < 6 ∧ charOverlap < 1/2 then combined * (7/10) else combined
    let combined3 :=
      if lengthQuot < 3/5 then combined2 * (1/2 + lengthQuot * (1/2)) else combined2
    min 1 (max 0 combined3)

/-- The statistical-similarity formula exactly as the specification states
it (claim C6): the fixed-weight fusion of the six signals, the two
post-multipliers, and the clamp to `[0,1]`, with no short-circuit branches.
Written from the spec's words, to be compared against
`calculateStatisticalSimilarity`. -/
def statisticalSimilaritySpec (lev : String → String → ℕ)
    (jw : String → String → ℚ) (name1 name2 : String) : ℚ :=
  let n1 := normName name1
  let n2 := normName name2
  let maxLen := max n1.data.length n2.data.length
  let minLen := min n1.data.length n2.data.length
  let lengthQuot : ℚ := (minLen : ℚ) / (maxLen : ℚ)
  let lengthFactor : ℚ := 1/2 + lengthQuot * (1/2)
  let charOverlap := charOverlapRatioQ n1.data n2.data
  let positional : ℚ :=
    if 0 < minLen then posWeightSum n1.data n2.data 0 maxLen / (minLen : ℚ) else 0
  let bigramOverlap := bigramOverlapRatioQ n1.data n2.data
  let editSim : ℚ := 1 - (lev n1 n2 : ℚ) / (maxLen : ℚ)
  let jwSim := jw n1 n2
  let combined := (3/20) * lengthFactor + (1/5) * charOverlap + (1/4) * positional
    + (3/20) * bigramOverlap + (3/20) * editSim + (1/10) * jwSim
  let combined2 := if maxLen < 6 ∧ charOverlap < 1/2 then combined * (7/10) else combined
  let combined3 :=
    if lengthQuot < 3/5 then combined2 * (1/2 + lengthQuot * (1/2)) else combined2
  min 1 (max 0 combined3)

/-! ### Claim C6: statistical similarity formula -/

/-- C6: for non-empty inputs whose lowercased, stripped forms differ, the
statistical whole-name similarity is exactly the weighted six-signal sum
with the short-string and length-mismatch post-multipliers, clamped to
`[0,1]`. -/
theorem statisticalSimilarity_eq_formula (lev : String → String → ℕ)
    (jw : String → String → ℚ) (name1 name2 : String)
    (h1 : name1 ≠ "") (h2 : name2 ≠ "")
    (h3 : normName name1 ≠ normName name2) :
    calculateStatisticalSimilarity lev jw name1 name2 =
      statisticalSimilaritySpec lev jw name1 name2 := by
  have hmax : ¬(max (normName name1).data.length (normName name2).data.length = 0) := by
    intro hmax
    apply h3
    have e1 : (normName name1).data = [] :=
      List.eq_nil_of_length_eq_zero (Nat.max_eq_zero_iff.1 hmax).1
    have e2 : (normName name2).data = [] :=
      List.eq_nil_of_length_eq_zero (Nat.max_eq_zero_iff.1 hmax).2
    show (⟨(normName name1).data⟩ : String) = ⟨(normName name2).data⟩
    rw [e1, e2]
  unfold calculateStatisticalSimilarity
  rw [if_neg (not_or.2 ⟨h1, h2⟩), if_neg h3, if_neg hmax]
  rfl

/-- C6 witness at concrete abstracted primitives and inputs. -/
theorem statisticalSimilarity_eq_formula_witness :
    calculateStatisticalSimilarity (fun _ _ => 2) (fun _ _ => 0) "ab" "cd" =
      statisticalSimilaritySpec (fun _ _ => 2) (fun _ _ => 0) "ab" "cd" :=
  statisticalSimilarity_eq_formula (fun _ _ => 2) (fun _ _ => 0) "ab" "cd"
    (by decide) (by decide) (by decide)

/-! ## Languages and name components (`core.py`) -/

/-- The `Language` enumeration of `core.py`. -/
inductive Language where
  | english | french | german | italian | spanish | portuguese
  | arabic | russian | mandarin
deriving DecidableEq

/-- `NameComponents` of `core.py`; the `prefix` field is called `title`
here (its value is `HumanName.title` in `segment_name`). -/
structure NameComponents where
  first : String := ""
  middle : String := ""
  last : String := ""
  title : String := ""
  suffix : String := ""
  original : String := ""
  language : Language := Language.english
deriving DecidableEq

/-- `MatchResult` of `core.py`; the `scores` dict is modelled as an
association list in Python insertion order. -/
structure MatchResult where
  confidence : ℚ
  name1 : NameComponents
  name2 : NameComponents
  scores : List (String × ℚ)
  method : String

/-! ## `NameMatcher.match_names` -/

/-- Python `name.strip().lower()`, the exact-match normalization of
`match_names` (matcher.py line 362). -/
def pyStripLower (s : String) : String := lowerStr (trimStr s)

/-- The hyphen normalization of `match_names` (matcher.py lines 384-385):
`name.strip().lower().replace("-", " ").replace("  ", " ")`. -/
def hyphenNormalized (s : String) : String :=
  pyReplace (pyReplace (pyStripLower s) "-" " ") "  " " "

/-- The `honorific_prefixes` set of `_calculate_all_scores` (matcher.py
lines 500-511). -/
def honorificAbbrevList : List String :=
  ["m", "m.", "mme", "dr", "dr.", "prof", "prof.", "herr", "frau", "mlle"]

/-- Whether `name.lower().split()` is nonempty and its first word, with
periods removed, is a common honorific abbreviation (matcher.py lines
512-516). -/
def firstWordIsHonorific (name : String) : Bool :=
  match pyWords (lowerStr name) with
  | [] => false
  | w :: _ => honorificAbbrevList.contains (pyReplace w "." "")

/-- The `length_penalty` entry of `_calculate_all_scores` (matcher.py lines
494-525), with the default `LengthPenaltyParams`
(`min_length_difference 3`, `length_penalty_factor 0.03`,
`max_length_penalty 1.0`). -/
def lengthPenaltyScore (name1 name2 : String) : ℚ :=
  if 0 < max name1.data.length name2.data.length ∧
      3 < max name1.data.length name2.data.length -
        min name1.data.length name2.data.length then
    if firstWordIsHonorific name1 || firstWordIsHonorific name2 then 1
    else 1 -
      ((max name1.data.length name2.data.length -
          min name1.data.length name2.data.length : ℕ) : ℚ) /
        ((max name1.data.length name2.data.length : ℕ) : ℚ) * (3/100)
  else 1

/-- `NameMatcher.match_names` (matcher.py lines 349-428).  Segmentation and
the component comparators delegate to external libraries (nameparser,
jellyfish, phonetics), so the two segmentation results and the five
component scores they produce are taken as parameters; the short-circuit
normalizations, the length penalty, the structural flags
(`bool(components.first.strip())` etc.) and the composite calculation are
embedded concretely. -/
def matchNames (seg1 seg2 : NameComponents)
    (whole first last middle phonetic : ℚ) (name1 name2 : String) : MatchResult :=
  if pyStripLower name1 = pyStripLower name2 then
    { confidence := 1, name1 := seg1, name2 := seg2, method := "exact_match",
      scores := [("first_name", 1), ("last_name", 1), ("middle_name", 1),
                 ("phonetic", 1), ("composite", 1), ("length_penalty", 1)] }
  else if hyphenNormalized name1 = hyphenNormalized name2 then
    { confidence := 19/20, name1 := seg1, name2 := seg2,
      method := "hyphen_normalized_match",
      scores := [("first_name", 19/20), ("last_name", 19/20),
                 ("middle_name", 19/20), ("phonetic", 19/20),
                 ("composite", 19/20), ("length_penalty", 1)] }
  else
    { confidence :=
        calculateCompositeScore
          ⟨whole, first, last, middle, phonetic, lengthPenaltyScore name1 name2⟩
          (!(trimStr seg1.first == "")) (!(trimStr seg1.last == ""))
          (!(trimStr seg2.first == "")) (!(trimStr seg2.last == "")),
      name1 := seg1, name2 := seg2, method := "advanced_multilingual",
      scores := [("whole_name", whole), ("first_name", first),
                 ("last_name", last), ("middle_name", middle),
                 ("phonetic", phonetic),
                 ("length_penalty", lengthPenaltyScore name1 name2),
                 ("max_possible_score", selectCap whole first last),
                 ("composite",
                   calculateCompositeScore
                     ⟨whole, first, last, middle, phonetic,
                       lengthPenaltyScore name1 name2⟩
                     (!(trimStr seg1.first == "")) (!(trimStr seg1.last == ""))
                     (!(trimStr seg2.first == "")) (!(trimStr seg2.last == "")))] }

/-! ### Bounds lemmas for the composite layer -/

lemma selectCap_cases (w f l : ℚ) :
    selectCap w f l = 2/5 ∨ selectCap w f l = 1/2 ∨ selectCap w f l = 1 := by
  unfold selectCap
  split_ifs <;> simp

lemma selectWeights_mem (a b c d : Bool) (f l p : ℚ) :
    selectWeights a b c d f l p = (3/5, 0, 0, 2/5) ∨
    selectWeights a b c d f l p = (0, 3/5, 0, 2/5) ∨
    selectWeights a b c d f l p = (3/10, 3/10, 0, 2/5) ∨
    selectWeights a b c d f l p = (1/4, 1/4, 1/10, 2/5) ∨
    selectWeights a b c d f l p = (7/20, 7/20, 3/20, 3/20) := by
  unfold selectWeights
  split_ifs <;> simp

lemma weightedSum_bounds_of (s : Scores) (w1 w2 w3 w4 : ℚ)
    (h1 : 0 ≤ w1) (h2 : 0 ≤ w2) (h3 : 0 ≤ w3) (h4 : 0 ≤ w4)
    (hsum : w1 + w2 + w3 + w4 = 1)
    (hf0 : 0 ≤ s.first_name) (hf1 : s.first_name ≤ 1)
    (hl0 : 0 ≤ s.last_name) (hl1 : s.last_name ≤ 1)
    (hm0 : 0 ≤ s.middle_name) (hm1 : s.middle_name ≤ 1)
    (hp0 : 0 ≤ s.phonetic) (hp1 : s.phonetic ≤ 1) :
    0 ≤ weightedSum s (w1, w2, w3, w4) ∧ weightedSum s (w1, w2, w3, w4) ≤ 1 := by
  unfold weightedSum
  simp only
  constructor
  · have := mul_nonneg hf0 h1
    have := mul_nonneg hl0 h2
    have := mul_nonneg hm0 h3
    have := mul_nonneg hp0 h4
    linarith
  · have := mul_le_of_le_one_left h1 hf1
    have := mul_le_of_le_one_left h2 hl1
    have := mul_le_of_le_one_left h3 hm1
    have := mul_le_of_le_one_left h4 hp1
    linarith

lemma applyPenalty_bounds (f l c : ℚ) (h0 : 0 ≤ c) (h1 : c ≤ 1) :
    0 ≤ applyPenalty f l c ∧ applyPenalty f l c ≤ 1 := by
  unfold applyPenalty
  split_ifs <;> constructor <;> linarith

lemma applyBoosts_bounds (c : ℚ) (h0 : 0 ≤ c) (h1 : c ≤ 1) :
    0 ≤ applyBoosts c ∧ applyBoosts c ≤ 1 := by
  unfold applyBoosts
  split_ifs with hb1 hb2 hb3
  · exact ⟨le_min (by norm_num) (by nlinarith), le_trans (min_le_left _ _) (by norm_num)⟩
  · exact ⟨le_min (by norm_num) (by nlinarith), le_trans (min_le_left _ _) (by norm_num)⟩
  · exact ⟨le_min (by norm_num) (by nlinarith), le_trans (min_le_left _ _) (by norm_num)⟩
  · exact ⟨h0, h1⟩

lemma calculateCompositeScore_bounds (s : Scores) (a b c d : Bool)
    (hf0 : 0 ≤ s.first_name) (hf1 : s.first_name ≤ 1)
    (hl0 : 0 ≤ s.last_name) (hl1 : s.last_name ≤ 1)
    (hm0 : 0 ≤ s.middle_name) (hm1 : s.middle_name ≤ 1)
    (hp0 : 0 ≤ s.phonetic) (hp1 : s.phonetic ≤ 1)
    (hlp0 : 0 ≤ s.length_penalty) (hlp1 : s.length_penalty ≤ 1) :
    0 ≤ calculateCompositeScore s a b c d ∧
      calculateCompositeScore s a b c d ≤ 1 := by
  unfold calculateCompositeScore
  have hws : 0 ≤ weightedSum s (selectWeights a b c d s.first_name s.last_name
      s.phonetic) ∧ weightedSum s (selectWeights a b c d s.first_name
      s.last_name s.phonetic) ≤ 1 := by
    rcases selectWeights_mem a b c d s.first_name s.last_name s.phonetic with
      h | h | h | h | h <;> rw [h] <;>
      exact weightedSum_bounds_of s _ _ _ _ (by norm_num) (by norm_num)
        (by norm_num) (by norm_num) (by norm_num)
        hf0 hf1 hl0 hl1 hm0 hm1 hp0 hp1
  have hcappos : 0 ≤ selectCap s.whole_name s.first_name s.last_name := by
    rcases selectCap_cases s.whole_name s.first_name s.last_name with
      h | h | h <;> rw [h] <;> norm_num
  have hmin0 : 0 ≤ min (weightedSum s (selectWeights a b c d s.first_name
      s.last_name s.phonetic)) (selectCap s.whole_name s.first_name
      s.last_name) := le_min hws.1 hcappos
  have hmin1 : min (weightedSum s (selectWeights a b c d s.first_name
      s.last_name s.phonetic)) (selectCap s.whole_name s.first_name
      s.last_name) ≤ 1 := le_trans (min_le_left _ _) hws.2
  have hpen := applyPenalty_bounds s.first_name s.last_name _ hmin0 hmin1
  have hmul0 : 0 ≤ applyPenalty s.first_name s.last_name
      (min (weightedSum s (selectWeights a b c d s.first_name s.last_name
        s.phonetic)) (selectCap s.whole_name s.first_name s.last_name)) *
      s.length_penalty := mul_nonneg hpen.1 hlp0
  have hmul1 : applyPenalty s.first_name s.last_name
      (min (weightedSum s (selectWeights a b c d s.first_name s.last_name
        s.phonetic)) (selectCap s.whole_name s.first_name s.last_name)) *
      s.length_penalty ≤ 1 := mul_le_one₀ hpen.2 hlp0 hlp1
  exact applyBoosts_bounds _ hmul0 hmul1

lemma lengthPenaltyScore_bounds (name1 name2 : String) :
    0 ≤ lengthPenaltyScore name1 name2 ∧ lengthPenaltyScore name1 name2 ≤ 1 := by
  unfold lengthPenaltyScore
  split_ifs with h1 h2
  · norm_num
  · have hmpos : (0 : ℚ) < ((max name1.data.length name2.data.length : ℕ) : ℚ) := by
      exact_mod_cast h1.1
    have hdm : ((max name1.data.length name2.data.length -
        min name1.data.length name2.data.length : ℕ) : ℚ) ≤
        ((max name1.data.length name2.data.length : ℕ) : ℚ) := by
      exact_mod_cast Nat.sub_le _ _
    have hd0 : (0 : ℚ) ≤ ((max name1.data.length name2.data.length -
        min name1.data.length name2.data.length : ℕ) : ℚ) := by positivity
    have hq1 : ((max name1.data.length name2.data.length -
        min name1.data.length name2.data.length : ℕ) : ℚ) /
        ((max name1.data.length name2.data.length : ℕ) : ℚ) ≤ 1 :=
      (div_le_one hmpos).2 hdm
    have hq0 : (0 : ℚ) ≤ ((max name1.data.length name2.data.length -
        min name1.data.length name2.data.length : ℕ) : ℚ) /
        ((max name1.data.length name2.data.length : ℕ) : ℚ) :=
      div_nonneg hd0 (le_of_lt hmpos)
    constructor <;> nlinarith
  · norm_num

/-! ### Claim C4: match result invariants -/

/-- C4: for all raw inputs and all in-range component comparator outputs,
`match_names` returns a confidence in `[0,1]`, every entry of its scores
map lies in `[0,1]`, and the confidence equals the scores map's
`"composite"` entry.  The five component scores are abstracted as
parameters because the comparators delegate to external string libraries,
whose contract (spec §4.1/§4.2) is a value in `[0,1]`. -/
theorem matchNames_invariants (seg1 seg2 : NameComponents)
    (whole first last middle phonetic : ℚ) (name1 name2 : String)
    (hw0 : 0 ≤ whole) (hw1 : whole ≤ 1)
    (hf0 : 0 ≤ first) (hf1 : first ≤ 1)
    (hl0 : 0 ≤ last) (hl1 : last ≤ 1)
    (hm0 : 0 ≤ middle) (hm1 : middle ≤ 1)
    (hp0 : 0 ≤ phonetic) (hp1 : phonetic ≤ 1) :
    (0 ≤ (matchNames seg1 seg2 whole first last middle phonetic name1 name2).confidence ∧
      (matchNames seg1 seg2 whole first last middle phonetic name1 name2).confidence ≤ 1) ∧
    (∀ kv ∈ (matchNames seg1 seg2 whole first last middle phonetic name1 name2).scores,
      0 ≤ kv.2 ∧ kv.2 ≤ 1) ∧
    (matchNames seg1 seg2 whole first last middle phonetic name1 name2).scores.lookup
        "composite" =
      some (matchNames seg1 seg2 whole first last middle phonetic name1 name2).confidence := by
  unfold matchNames
  split_ifs with hEx hHy
  · refine ⟨⟨by norm_num, by norm_num⟩, ?_, rfl⟩
    intro kv hkv
    simp only [List.mem_cons, List.not_mem_nil, or_false] at hkv
    rcases hkv with h | h | h | h | h | h <;> subst h <;>
      exact ⟨by norm_num, by norm_num⟩
  · refine ⟨⟨by norm_num, by norm_num⟩, ?_, rfl⟩
    intro kv hkv
    simp only [List.mem_cons, List.not_mem_nil, or_false] at hkv
    rcases hkv with h | h | h | h | h | h <;> subst h <;>
      exact ⟨by norm_num, by norm_num⟩
  · have hlp := lengthPenaltyScore_bounds name1 name2
    have hcomp := calculateCompositeScore_bounds
      ⟨whole, first, last, middle, phonetic, lengthPenaltyScore name1 name2⟩
      (!(trimStr seg1.first == "")) (!(trimStr seg1.last == ""))
      (!(trimStr seg2.first == "")) (!(trimStr seg2.last == ""))
      hf0 hf1 hl0 hl1 hm0 hm1 hp0 hp1 hlp.1 hlp.2
    refine ⟨hcomp, ?_, rfl⟩
    intro kv hkv
    simp only [List.mem_cons, List.not_mem_nil, or_false] at hkv
    rcases hkv with h | h | h | h | h | h | h | h <;> subst h
    · exact ⟨hw0, hw1⟩
    · exact ⟨hf0, hf1⟩
    · exact ⟨hl0, hl1⟩
    · exact ⟨hm0, hm1⟩
    · exact ⟨hp0, hp1⟩
    · exact hlp
    · rcases selectCap_cases whole first last with h | h | h <;>
        · show 0 ≤ selectCap whole first last ∧ selectCap whole first last ≤ 1
          rw [h]
          norm_num
    · exact hcomp

/-- C4 witness at concrete inputs. -/
theorem matchNames_invariants_witness :
    (0 ≤ (matchNames {} {} (1/2) (1/2) (1/2) (1/2) (1/2) "Anna" "Bob").confidence ∧
      (matchNames {} {} (1/2) (1/2) (1/2) (1/2) (1/2) "Anna" "Bob").confidence ≤ 1) ∧
    (∀ kv ∈ (matchNames {} {} (1/2) (1/2) (1/2) (1/2) (1/2) "Anna" "Bob").scores,
      0 ≤ kv.2 ∧ kv.2 ≤ 1) ∧
    (matchNames {} {} (1/2) (1/2) (1/2) (1/2) (1/2) "Anna" "Bob").scores.lookup
        "composite" =
      some (matchNames {} {} (1/2) (1/2) (1/2) (1/2) (1/2) "Anna" "Bob").confidence :=
  matchNames_invariants {} {} (1/2) (1/2) (1/2) (1/2) (1/2) "Anna" "Bob"
    (by norm_num) (by norm_num) (by norm_num) (by norm_num) (by norm_num)
    (by norm_num) (by norm_num) (by norm_num) (by norm_num) (by norm_num)

/-! ### Claim C5: short-circuit matches -/

/-- C5: stripped case-folded identical inputs give confidence `1.0`, method
`"exact_match"` and all sub-scores `1.0`; inputs that are not stripped
case-folded identical but agree after hyphen/double-space normalization
give confidence `0.95` and method `"hyphen_normalized_match"`. -/
theorem matchNames_short_circuits (seg1 seg2 : NameComponents)
    (whole first last middle phonetic : ℚ) (name1 name2 : String) :
    (pyStripLower name1 = pyStripLower name2 →
      (matchNames seg1 seg2 whole first last middle phonetic name1 name2).confidence = 1 ∧
      (matchNames seg1 seg2 whole first last middle phonetic name1 name2).method =
        "exact_match" ∧
      ∀ kv ∈ (matchNames seg1 seg2 whole first last middle phonetic name1 name2).scores,
        kv.2 = 1) ∧
    (pyStripLower name1 ≠ pyStripLower name2 →
      hyphenNormalized name1 = hyphenNormalized name2 →
      (matchNames seg1 seg2 whole first last middle phonetic name1 name2).confidence =
        19/20 ∧
      (matchNames seg1 seg2 whole first last middle phonetic name1 name2).method =
        "hyphen_normalized_match") := by
  constructor
  · intro hEx
    unfold matchNames
    rw [if_pos hEx]
    refine ⟨rfl, rfl, ?_⟩
    intro kv hkv
    simp only [List.mem_cons, List.not_mem_nil, or_false] at hkv
    rcases hkv with h | h | h | h | h | h <;> subst h <;> rfl
  · intro hEx hHy
    unfold matchNames
    rw [if_neg hEx, if_pos hHy]
    exact ⟨rfl, rfl⟩

/-- C5 witness at the spec's own examples. -/
theorem matchNames_short_circuits_witness :
    (matchNames {} {} 0 0 0 0 0 "John Smith" "John Smith").confidence = 1 ∧
    (matchNames {} {} 0 0 0 0 0 "John Smith" "John Smith").method = "exact_match" ∧
    (matchNames {} {} 0 0 0 0 0 "Mary-Jane Watson" "Mary Jane Watson").confidence =
      19/20 ∧
    (matchNames {} {} 0 0 0 0 0 "Mary-Jane Watson" "Mary Jane Watson").method =
      "hyphen_normalized_match" :=
  ⟨((matchNames_short_circuits {} {} 0 0 0 0 0 "John Smith" "John Smith").1
      (by decide)).1,
   ((matchNames_short_circuits {} {} 0 0 0 0 0 "John Smith" "John Smith").1
      (by decide)).2.1,
   ((matchNames_short_circuits {} {} 0 0 0 0 0 "Mary-Jane Watson"
      "Mary Jane Watson").2 (by decide) (by decide)).1,
   ((matchNames_short_circuits {} {} 0 0 0 0 0 "Mary-Jane Watson"
      "Mary Jane Watson").2 (by decide) (by decide)).2⟩

/-! ## Honorific stripping (`NameMatcher._strip_honorifics`) -/

/-- `FRENCH_PARTICLES` (french.py). -/
def frenchParticles : List String :=
  ["de", "du", "des", "le", "la", "les", "d'", "di", "da", "del", "della"]

/-- `GERMAN_PARTICLES` (german.py). -/
def germanParticles : List String :=
  ["von", "zu", "zur", "der", "van", "de", "am", "im", "vom", "zum", "und"]

/-- `ITALIAN_PARTICLES` (italian.py). -/
def italianParticles : List String :=
  ["di", "da", "del", "della", "dei", "delle", "dello", "degli", "de", "d'",
   "dal", "dalla", "dallo", "dalle", "san", "santa", "santo"]

/-- `SPANISH_PARTICLES` (spanish.py). -/
def spanishParticles : List String :=
  ["de", "del", "de la", "de las", "de los", "y", "e", "san", "santa",
   "santo", "da", "das", "dos", "do"]

/-- `PORTUGUESE_PARTICLES` (portuguese.py). -/
def portugueseParticles : List String :=
  ["da", "das", "de", "del", "do", "dos", "e", "y", "san", "santa", "santo",
   "são"]

/-- `ENGLISH_PARTICLES` (english.py). -/
def englishParticles : List String := ["mc", "mac", "o'", "of", "the"]

/-- `ARABIC_PARTICLES` (arabic.py). -/
def arabicParticles : List String :=
  ["al", "el", "ibn", "bin", "bint", "abu", "um", "abd",
   "عبد", "ابن", "بن", "بنت", "أبو", "أم", "الـ"]

/-- `RUSSIAN_PARTICLES` (russian.py). -/
def russianParticles : List String :=
  ["де", "ван", "фон", "ла", "ле", "дю",
   "de", "van", "von", "la", "le", "du", "der", "des"]

/-- The particle set hardcoded inside `_strip_honorifics` (matcher.py lines
285-287): its own `french_particles | german_particles` locals, NOT the
language modules' particle constants. -/
def matcherAllParticles : List String :=
  ["de", "du", "des", "le", "la", "les", "d'"] ++
    ["von", "zu", "zur", "der", "van", "de", "am", "im"]

/-- The union of every language module's particle set, as the words of the
spec ("the union of all languages' particle sets") describe; membership in
this list models membership in the union of the Python sets. -/
def unionAllParticles : List String :=
  englishParticles ++ frenchParticles ++ germanParticles ++ italianParticles ++
    spanishParticles ++ portugueseParticles ++ arabicParticles ++ russianParticles

/-- The `common_honorifics` set of `_strip_honorifics` (matcher.py lines
305-315). -/
def commonHonorifics : List String :=
  ["mr", "mrs", "miss", "ms", "dr", "prof", "professor", "sir", "lady"]

/-- `ENGLISH_HONORIFICS` (english.py), the built-in part of the honorifics
set loaded for English. -/
def englishHonorifics : List String :=
  ["mr", "mr.", "mrs", "mrs.", "miss", "ms", "ms.", "dr", "dr.", "prof",
   "prof.", "professor", "sir", "lady", "lord", "dame", "rev", "reverend",
   "captain", "colonel", "major", "general"]

/-- Python `word.replace(".", "")`. -/
def removePeriods (w : String) : String := pyReplace w "." ""

/-- One of the two honorific-popping `while` loops of `_strip_honorifics`
(matcher.py lines 294-302 and 316-324): drop leading words whose lowered,
period-free form is in the set, while more than 2 words remain. -/
def stripLoop (hset : List String) : List String → List String
  | [] => []
  | w :: rest =>
    if 2 < (w :: rest).length ∧ removePeriods (lowerStr w) ∈ hset then
      stripLoop hset rest
    else w :: rest

/-- The 3-word special case of `_strip_honorifics` (matcher.py lines
281-290): first word (lowered, period-free) an honorific and second word
(lowered) in the matcher's hardcoded particle union. -/
def specialCase3 (honorifics words : List String) : Bool :=
  match words with
  | [w0, w1, _] =>
    honorifics.contains (removePeriods (lowerStr w0)) &&
      matcherAllParticles.contains (lowerStr w1)
  | _ => false

/-- The 3-word special case as the specification words it (claim C7): the
second word is tested against the union of ALL languages' particle sets.
Written from the spec's words, to be compared against `specialCase3`. -/
def specSpecialCase3 (honorifics words : List String) : Bool :=
  match words with
  | [w0, w1, _] =>
    honorifics.contains (removePeriods (lowerStr w0)) &&
      unionAllParticles.contains (lowerStr w1)
  | _ => false

/-- `_strip_honorifics` (matcher.py lines 271-333), parameterized by the
loaded honorifics set (built-in constants plus data files), with the
default `HonorificParams` (`min_words_for_stripping 2`,
`special_case_word_count 3`). -/
def stripHonorifics (honorifics : List String) (name : String) : String :=
  if (pyWords name).length ≤ 2 then name
  else if specialCase3 honorifics (pyWords name) then name
  else if stripLoop commonHonorifics (stripLoop honorifics (pyWords name)) = [] ∨
      (stripLoop commonHonorifics (stripLoop honorifics (pyWords name))).length < 2 then
    name
  else joinWords (stripLoop commonHonorifics (stripLoop honorifics (pyWords name)))

lemma stripLoop_suffix (hset : List String) :
    ∀ l : List String, List.IsSuffix (stripLoop hset l) l := by
  intro l
  induction l with
  | nil => exact List.suffix_refl _
  | cons w rest ih =>
    unfold stripLoop
    split_ifs with h
    · exact ih.trans (List.suffix_cons w rest)
    · exact List.suffix_refl _

lemma stripLoop_length (hset : List String) :
    ∀ l : List String, 2 ≤ l.length → 2 ≤ (stripLoop hset l).length := by
  intro l
  induction l with
  | nil => intro h; simp at h
  | cons w rest ih =>
    intro hlen
    unfold stripLoop
    split_ifs with h
    · refine ih ?_
      have h1 := h.1
      simp only [List.length_cons] at h1
      omega
    · exact hlen

/-! ### Claim C7: honorific stripping -/

/-- C7 counterexample: for the input `"Dr. di Rossi"` with the English
honorifics set, the claim's special case applies (`"dr"` is an honorific
and `"di"` is in the union of all languages' particle sets, through French
and Italian), so the claim predicts the input is returned unchanged; the
code instead tests `"di"` against its own hardcoded French/German particle
set, misses, and strips the honorific. -/
theorem stripHonorifics_claim_counterexample :
    specSpecialCase3 englishHonorifics (pyWords "Dr. di Rossi") = true ∧
      specialCase3 englishHonorifics (pyWords "Dr. di Rossi") = false ∧
      stripHonorifics englishHonorifics "Dr. di Rossi" = "di Rossi" ∧
      stripHonorifics englishHonorifics "Dr. di Rossi" ≠ "Dr. di Rossi" := by
  refine ⟨by decide, by decide, by decide, by decide⟩

/-- C7 (amended): honorific stripping returns the input unchanged whenever
it has at most 2 words; for an exactly-3-word input whose first word is an
honorific and whose second word belongs to the matcher's own hardcoded
French/German particle set (not the union of all languages' particle
sets), stripping is skipped; otherwise only leading words are removed and
only while more than 2 words remain, so any changed result is a suffix of
the word list with at least 2 words. -/
theorem stripHonorifics_amended :
    (∀ hon name, (pyWords name).length ≤ 2 → stripHonorifics hon name = name) ∧
    (∀ hon name, specialCase3 hon (pyWords name) = true →
      stripHonorifics hon name = name) ∧
    (∀ hon name, stripHonorifics hon name = name ∨
      ∃ ws, List.IsSuffix ws (pyWords name) ∧ 2 ≤ ws.length ∧
        stripHonorifics hon name = joinWords ws) := by
  refine ⟨?_, ?_, ?_⟩
  · intro hon name h
    unfold stripHonorifics
    rw [if_pos h]
  · intro hon name h
    by_cases h1 : (pyWords name).length ≤ 2
    · unfold stripHonorifics; rw [if_pos h1]
    · unfold stripHonorifics; rw [if_neg h1, if_pos h]
  · intro hon name
    by_cases h1 : (pyWords name).length ≤ 2
    · left; unfold stripHonorifics; rw [if_pos h1]
    · by_cases h2 : specialCase3 hon (pyWords name) = true
      · left; unfold stripHonorifics; rw [if_neg h1, if_pos h2]
      · by_cases h3 : stripLoop commonHonorifics (stripLoop hon (pyWords name)) = [] ∨
            (stripLoop commonHonorifics (stripLoop hon (pyWords name))).length < 2
        · left; unfold stripHonorifics; rw [if_neg h1, if_neg h2, if_pos h3]
        · right
          refine ⟨stripLoop commonHonorifics (stripLoop hon (pyWords name)), ?_, ?_, ?_⟩
          · exact (stripLoop_suffix commonHonorifics _).trans (stripLoop_suffix hon _)
          · push_neg at h3
            exact h3.2
          · unfold stripHonorifics; rw [if_neg h1, if_neg h2, if_neg h3]

/-- C7 amended-claim witness at concrete inputs. -/
theorem stripHonorifics_amended_witness :
    stripHonorifics englishHonorifics "John Smith" = "John Smith" ∧
      stripHonorifics englishHonorifics "Dr. von Trapp" = "Dr. von Trapp" :=
  ⟨stripHonorifics_amended.1 englishHonorifics "John Smith" (by decide),
   stripHonorifics_amended.2.1 englishHonorifics "Dr. von Trapp" (by decide)⟩

/-! ## Diminutive loading and expansion (`data_loader.py`)

The diminutives file is modelled after parsing: a list of rows, each row
the list of comma-separated, stripped, lowercased names on one line
(`load_diminutives` only processes lines that contain a comma and yield at
least 2 parts; the length guard is kept below).  The Python dict is
modelled as a function to `Option (List String)`; the Python
`set`-union merge (`existing.update(variants); list(existing)`) is
modelled as `(existing ++ new).dedup`, which has the same membership and
no duplicates. -/

/-- The variants a row `parts` contributes for `name`:
`[n for n in parts if n != name]` (data_loader.py line 34). -/
def rowVariants (parts : List String) (name : String) : List String :=
  parts.filter (fun n => n ≠ name)

/-- Insert one name of a row into the diminutives dict (data_loader.py
lines 32-41). -/
def insertName (parts : List String) (d : String → Option (List String))
    (name : String) : String → Option (List String) :=
  fun k =>
    if k = name then
      match d name with
      | none => some (rowVariants parts name)
      | some ex => some ((ex ++ rowVariants parts name).dedup)
    else d k

/-- Process one row of the diminutives data (data_loader.py lines 26-41):
rows with fewer than 2 parts are skipped. -/
def insertRow (d : String → Option (List String)) (parts : List String) :
    String → Option (List String) :=
  if 2 ≤ parts.length then parts.foldl (insertName parts) d else d

/-- `load_diminutives` (data_loader.py lines 18-43) over parsed rows. -/
def loadDiminutives (rows : List (List String)) : String → Option (List String) :=
  rows.foldl insertRow (fun _ => none)

/-- Dict lookup defaulting to no variants. -/
def lookupVars (d : String → Option (List String)) (k : String) : List String :=
  (d k).getD []

/-- `expand_diminutives` (data_loader.py lines 76-84): `[name_lower] +
variants` when present, `[name_lower]` otherwise (identical to prepending
the lowered name to the defaulted lookup). -/
def expandDiminutives (rows : List (List String)) (name : String) : List String :=
  lowerStr name :: lookupVars (loadDiminutives rows) (lowerStr name)

lemma insertName_preserves (parts : List String) (d : String → Option (List String))
    (name k t : String) (h : t ∈ lookupVars d k) :
    t ∈ lookupVars (insertName parts d name) k := by
  unfold lookupVars at h ⊢
  unfold insertName
  by_cases hk : k = name
  · subst hk
    rw [if_pos rfl]
    cases hd : d k with
    | none => rw [hd] at h; simp at h
    | some ex =>
      rw [hd] at h
      simp only [Option.getD_some] at h ⊢
      rw [List.mem_dedup, List.mem_append]
      exact Or.inl h
  · rw [if_neg hk]
    exact h

lemma foldl_insertName_preserves (parts : List String) (names : List String) :
    ∀ (d : String → Option (List String)) (k t : String),
      t ∈ lookupVars d k → t ∈ lookupVars (names.foldl (insertName parts) d) k := by
  induction names with
  | nil => intro d k t h; exact h
  | cons n ns ih =>
    intro d k t h
    exact ih _ k t (insertName_preserves parts d n k t h)

lemma insertName_adds (parts : List String) (d : String → Option (List String))
    (t1 t2 : String) (h2 : t2 ∈ parts) (hne : t2 ≠ t1) :
    t2 ∈ lookupVars (insertName parts d t1) t1 := by
  unfold lookupVars insertName
  rw [if_pos rfl]
  have hvar : t2 ∈ rowVariants parts t1 := by
    unfold rowVariants
    rw [List.mem_filter]
    exact ⟨h2, by simpa using hne⟩
  cases hd : d t1 with
  | none => simpa using hvar
  | some ex =>
    simp only [Option.getD_some]
    rw [List.mem_dedup, List.mem_append]
    exact Or.inr hvar

lemma foldl_insertName_adds (parts : List String) (names : List String) :
    ∀ (d : String → Option (List String)) (t1 t2 : String),
      t1 ∈ names → t2 ∈ parts → t2 ≠ t1 →
      t2 ∈ lookupVars (names.foldl (insertName parts) d) t1 := by
  induction names with
  | nil => intro d t1 t2 h1; simp at h1
  | cons n ns ih =>
    intro d t1 t2 h1 h2 hne
    rcases List.mem_cons.1 h1 with h | h
    · subst h
      exact foldl_insertName_preserves parts ns _ t1 t2
        (insertName_adds parts d t1 t2 h2 hne)
    · exact ih _ t1 t2 h h2 hne

lemma insertRow_preserves (d : String → Option (List String))
    (parts : List String) (k t : String) (h : t ∈ lookupVars d k) :
    t ∈ lookupVars (insertRow d parts) k := by
  unfold insertRow
  split_ifs with hlen
  · exact foldl_insertName_preserves parts parts d k t h
  · exact h

lemma foldl_insertRow_preserves (rows : List (List String)) :
    ∀ (d : String → Option (List String)) (k t : String),
      t ∈ lookupVars d k → t ∈ lookupVars (rows.foldl insertRow d) k := by
  induction rows with
  | nil => intro d k t h; exact h
  | cons r rs ih =>
    intro d k t h
    exact ih _ k t (insertRow_preserves d r k t h)

lemma loadDiminutives_mem_aux (row : List String) (t1 t2 : String)
    (hlen : 2 ≤ row.length) (h1 : t1 ∈ row) (h2 : t2 ∈ row) (hne : t2 ≠ t1) :
    ∀ (rows : List (List String)) (d : String → Option (List String)),
      row ∈ rows → t2 ∈ lookupVars (rows.foldl insertRow d) t1 := by
  intro rows
  induction rows with
  | nil => intro d h; simp at h
  | cons r rs ih =>
    intro d hmem
    rcases List.mem_cons.1 hmem with h | h
    · subst h
      refine foldl_insertRow_preserves rs _ t1 t2 ?_
      unfold insertRow
      rw [if_pos hlen]
      exact foldl_insertName_adds row row d t1 t2 h1 h2 hne
    · exact ih _ h

/-- The dict invariant: every stored variant list is duplicate-free and
never contains its own key. -/
def DimInvariant (d : String → Option (List String)) : Prop :=
  ∀ k vs, d k = some vs → vs.Nodup ∧ k ∉ vs

lemma insertName_invariant (parts : List String) (hparts : parts.Nodup)
    (d : String → Option (List String)) (name : String)
    (hinv : DimInvariant d) : DimInvariant (insertName parts d name) := by
  intro k vs h
  unfold insertName at h
  by_cases hk : k = name
  · rw [if_pos hk] at h
    subst hk
    cases hd : d k with
    | none =>
      rw [hd] at h
      injection h with h
      subst h
      refine ⟨hparts.filter _, ?_⟩
      intro hmem
      unfold rowVariants at hmem
      rw [List.mem_filter] at hmem
      simp at hmem
    | some ex =>
      rw [hd] at h
      injection h with h
      subst h
      refine ⟨List.nodup_dedup _, ?_⟩
      intro hmem
      rw [List.mem_dedup, List.mem_append] at hmem
      rcases hmem with hm | hm
      · exact (hinv k ex hd).2 hm
      · unfold rowVariants at hm
        rw [List.mem_filter] at hm
        simp at hm
  · rw [if_neg hk] at h
    exact hinv k vs h

lemma foldl_insertName_invariant (parts : List String) (hparts : parts.Nodup)
    (names : List String) :
    ∀ (d : String → Option (List String)), DimInvariant d →
      DimInvariant (names.foldl (insertName parts) d) := by
  induction names with
  | nil => intro d h; exact h
  | cons n ns ih =>
    intro d h
    exact ih _ (insertName_invariant parts hparts d n h)

lemma loadDiminutives_invariant (rows : List (List String))
    (hrows : ∀ r ∈ rows, r.Nodup) : DimInvariant (loadDiminutives rows) := by
  unfold loadDiminutives
  have : ∀ (rs : List (List String)) (d : String → Option (List String)),
      (∀ r ∈ rs, r.Nodup) → DimInvariant d → DimInvariant (rs.foldl insertRow d) := by
    intro rs
    induction rs with
    | nil => intro d _ h; exact h
    | cons r rest ih =>
      intro d hnd h
      refine ih _ (fun x hx => hnd x (List.mem_cons_of_mem r hx)) ?_
      unfold insertRow
      split_ifs with hlen
      · exact foldl_insertName_invariant r (hnd r (List.mem_cons_self r rest)) r d h
      · exact h
  exact this rows _ hrows (fun k vs h => by simp at h)

/-! ### Claim C8: nickname expansion -/

/-- C8: nickname expansion always contains the (lowercased) input token;
co-listed names in any processed row are mutually reachable, regardless of
declaration direction; the declared `robert`/`bob`/`rob` row behaves as
the spec's example demands; and variant lists merged from several rows
carry no duplicates (for duplicate-free rows).  The first conjunct also
witnesses that an input token is returned in lowercased form. -/
theorem expandDiminutives_spec :
    (∀ (rows : List (List String)) (tok : String),
      lowerStr tok ∈ expandDiminutives rows tok) ∧
    (∀ (rows : List (List String)) (row : List String) (t1 t2 : String),
      row ∈ rows → 2 ≤ row.length → t1 ∈ row → t2 ∈ row → t2 ≠ t1 →
      lowerStr t1 = t1 → t2 ∈ expandDiminutives rows t1) ∧
    ("bob" ∈ expandDiminutives [["robert", "bob", "rob"]] "robert" ∧
      "rob" ∈ expandDiminutives [["robert", "bob", "rob"]] "robert" ∧
      "robert" ∈ expandDiminutives [["robert", "bob", "rob"]] "bob" ∧
      "rob" ∈ expandDiminutives [["robert", "bob", "rob"]] "bob") ∧
    (∀ (rows : List (List String)) (tok : String),
      (∀ r ∈ rows, r.Nodup) → (expandDiminutives rows tok).Nodup) := by
  refine ⟨?_, ?_, ?_, ?_⟩
  · intro rows tok
    exact List.mem_cons_self _ _
  · intro rows row t1 t2 hrow hlen h1 h2 hne hlow
    unfold expandDiminutives
    rw [hlow]
    exact List.mem_cons_of_mem _
      (loadDiminutives_mem_aux row t1 t2 hlen h1 h2 hne rows _ hrow)
  · refine ⟨by decide, by decide, by decide, by decide⟩
  · intro rows tok hrows
    unfold expandDiminutives
    cases hd : loadDiminutives rows (lowerStr tok) with
    | none => simp [lookupVars, hd]
    | some vs =>
      have hinv := loadDiminutives_invariant rows hrows _ _ hd
      simp only [lookupVars, hd, Option.getD_some]
      exact List.nodup_cons.2 ⟨hinv.2, hinv.1⟩

/-- C8 witness: the general clauses applied at the spec's concrete data. -/
theorem expandDiminutives_spec_witness :
    "rob" ∈ expandDiminutives [["robert", "bob", "rob"]] "bob" ∧
      (expandDiminutives [["al", "albert"], ["al", "alfred"]] "al").Nodup :=
  ⟨expandDiminutives_spec.2.1 [["robert", "bob", "rob"]] ["robert", "bob", "rob"]
      "bob" "rob" (by decide) (by decide) (by decide) (by decide) (by decide)
      (by decide),
   expandDiminutives_spec.2.2.2 [["al", "albert"], ["al", "alfred"]] "al"
      (by decide)⟩

/-! ## Segmentation (`NameMatcher.segment_name` and the per-language
`adjust_*_parsing` functions) -/

/-- The mutable `HumanName` record produced by the external `nameparser`
library and edited by the `adjust_*_parsing` functions; only the five
attributes the repository reads are modelled. -/
structure ParsedName where
  first : String := ""
  middle : String := ""
  last : String := ""
  title : String := ""
  suffix : String := ""
deriving DecidableEq

/-- Codepoint range check. -/
def inRange (lo hi n : ℕ) : Bool := lo.ble n && n.ble hi

/-- `is_arabic_character` membership of the ranges in `is_arabic_text`
(arabic.py line 72). -/
def isArabicChar (c : Char) : Bool :=
  inRange 0x600 0x6FF c.toNat || inRange 0x750 0x77F c.toNat ||
    inRange 0x8A0 0x8FF c.toNat

/-- `is_arabic_text` (arabic.py lines 70-72). -/
def isArabicText (s : String) : Bool := s.data.any isArabicChar

/-- The Cyrillic ranges of `is_cyrillic_text` (russian.py lines 66-70). -/
def isCyrillicChar (c : Char) : Bool :=
  inRange 0x400 0x4FF c.toNat || inRange 0x500 0x52F c.toNat ||
    inRange 0x2DE0 0x2DFF c.toNat || inRange 0xA640 0xA69F c.toNat

/-- `is_cyrillic_text` (russian.py lines 66-70). -/
def isCyrillicText (s : String) : Bool := s.data.any isCyrillicChar

/-- `is_chinese_character` (mandarin.py lines 542-544). -/
def isChineseChar (c : Char) : Bool :=
  inRange 0x4E00 0x9FFF c.toNat || inRange 0x3400 0x4DBF c.toNat

/-- `is_chinese_text` (mandarin.py lines 547-549). -/
def isChineseText (s : String) : Bool := s.data.any isChineseChar

/-- Python `re.sub(r"\s+", " ", text.strip())`: strip, then collapse inner
whitespace runs to single spaces. -/
def collapseSpaces (s : String) : String := joinWords (pyWords s)

/-- Arabic diacritics and tatweel removed by `normalize_arabic_text`
(arabic.py line 81). -/
def isArabicDiacritic (c : Char) : Bool :=
  inRange 0x64B 0x65F c.toNat || c.toNat == 0x670 || c.toNat == 0x640

/-- The letter standardizations of `normalize_arabic_text` (arabic.py lines
84-91): Alef forms to Alef, Teh Marbuta to Heh, Yeh forms to Yeh. -/
def arabicLetterNorm (c : Char) : Char :=
  if c = 'أ' ∨ c = 'إ' ∨ c = 'آ' then 'ا'
  else if c = 'ة' then 'ه'
  else if c = 'ى' ∨ c = 'ئ' then 'ي'
  else c

/-- `normalize_arabic_text` (arabic.py lines 75-96). -/
def normalizeArabicText (s : String) : String :=
  if s = "" then s
  else collapseSpaces ⟨(s.data.filter (fun c => !(isArabicDiacritic c))).map arabicLetterNorm⟩

/-- `normalize_cyrillic_text` (russian.py lines 73-81). -/
def normalizeCyrillicText (s : String) : String :=
  if s = "" then s else collapseSpaces s

/-- The Cyrillic patronymic endings of `adjust_russian_parsing`. -/
def cyrillicPatronymicSuffixes : List String :=
  ["ович", "евич", "ич", "овна", "евна", "ична"]

/-- The romanized patronymic endings of `adjust_russian_parsing`. -/
def romanPatronymicSuffixes : List String :=
  ["ovich", "evich", "ich", "ovna", "evna", "ichna"]

/-- Python `re.search(r"(...)$", word, re.IGNORECASE)` over a fixed
alternation of lowercase endings: some ending matches the lowered word's
tail. -/
def hasPatronymicSuffix (sufs : List String) (w : String) : Bool :=
  sufs.any (fun suf => (lowerStr w).endsWith suf)

/-- The first particle position strictly after the start (`for i, word in
enumerate(words): if word.lower() in PARTICLES and i > 0: ... break`). -/
def findParticleFrom (particles : List String) : ℕ → List String → Option ℕ
  | _, [] => none
  | i, w :: rest =>
    if 0 < i ∧ lowerStr w ∈ particles then some i
    else findParticleFrom particles (i + 1) rest

/-- The shared surname-split assignments of every `adjust_*_parsing`
particle loop: surname from the particle on; `first`/`middle` from what
precedes, by the index cases `i = 1`, `i = 2`, `i > 2`. -/
def splitAtParticle (p : ParsedName) (words : List String) (i : ℕ) : ParsedName :=
  { p with
    last := joinWords (words.drop i),
    first := if i = 1 ∨ i = 2 then words.getD 0 ""
      else joinWords (words.take (i - 1)),
    middle := if i = 1 then ""
      else if i = 2 then words.getD 1 ""
      else words.getD (i - 1) "" }

/-- The particle loop shared by the French/German/Italian/Portuguese (and
romanized Arabic/Russian) adjustments. -/
def particleSplit (particles : List String) (p : ParsedName)
    (words : List String) : ParsedName :=
  match findParticleFrom particles 0 words with
  | some i => splitAtParticle p words i
  | none => p

/-- `adjust_french_parsing` (french.py lines 43-68). -/
def adjustFrenchParsing (p : ParsedName) (name : String) : ParsedName :=
  if 3 ≤ (pyWords name).length then particleSplit frenchParticles p (pyWords name)
  else p

/-- `adjust_german_parsing` (german.py lines 38-63). -/
def adjustGermanParsing (p : ParsedName) (name : String) : ParsedName :=
  if 3 ≤ (pyWords name).length then particleSplit germanParticles p (pyWords name)
  else p

/-- `adjust_italian_parsing` (italian.py lines 63-88). -/
def adjustItalianParsing (p : ParsedName) (name : String) : ParsedName :=
  if 3 ≤ (pyWords name).length then particleSplit italianParticles p (pyWords name)
  else p

/-- `adjust_portuguese_parsing` (portuguese.py lines 60-85). -/
def adjustPortugueseParsing (p : ParsedName) (name : String) : ParsedName :=
  if 3 ≤ (pyWords name).length then
    particleSplit portugueseParticles p (pyWords name)
  else p

/-- `adjust_spanish_parsing` (spanish.py lines 72-116).  The compound
two-word-particle arm assigns exactly the same fields as the single-word
arm that follows it, so both arms of the inner conditional coincide. -/
def adjustSpanishParsing (p : ParsedName) (name : String) : ParsedName :=
  if 3 ≤ (pyWords name).length then
    match findParticleFrom spanishParticles 0 (pyWords name) with
    | some i =>
      if i < (pyWords name).length - 1 ∧
          lowerStr ((pyWords name).getD i "") ++ " " ++
            lowerStr ((pyWords name).getD (i + 1) "") ∈ spanishParticles then
        splitAtParticle p (pyWords name) i
      else splitAtParticle p (pyWords name) i
    | none => p
  else p

/-- `adjust_english_parsing` (english.py lines 38-42): the identity. -/
def adjustEnglishParsing (p : ParsedName) (_name : String) : ParsedName := p

/-- The particle scan of the Arabic-script branch of
`adjust_arabic_parsing`: membership of the normalized or plain lowered
word. -/
def findArabicParticleFrom : ℕ → List String → Option ℕ
  | _, [] => none
  | i, w :: rest =>
    if 0 < i ∧ (normalizeArabicText (lowerStr w) ∈ arabicParticles ∨
        lowerStr w ∈ arabicParticles) then some i
    else findArabicParticleFrom (i + 1) rest

/-- `adjust_arabic_parsing` (arabic.py lines 132-180). -/
def adjustArabicParsing (p : ParsedName) (name : String) : ParsedName :=
  if isArabicText name then
    match findArabicParticleFrom 0 (pyWords name) with
    | some i => splitAtParticle p (pyWords name) i
    | none => p
  else
    if 3 ≤ (pyWords name).length then particleSplit arabicParticles p (pyWords name)
    else p

/-- The particle scan of the Cyrillic branch of `adjust_russian_parsing`. -/
def findRussianParticleFrom : ℕ → List String → Option ℕ
  | _, [] => none
  | i, w :: rest =>
    if 0 < i ∧ (normalizeCyrillicText (lowerStr w) ∈ russianParticles ∨
        lowerStr w ∈ russianParticles) then some i
    else findRussianParticleFrom (i + 1) rest

/-- The Cyrillic-branch patronymic overrides of `adjust_russian_parsing`
for word counts 3 and 2 (russian.py lines 174-192). -/
def patronymicOverride (sufs : List String) (q : ParsedName)
    (words : List String) : ParsedName :=
  if words.length = 3 then
    if hasPatronymicSuffix sufs (words.getD 1 "") then
      { q with
        first := words.getD 0 ""
        middle := words.getD 1 ""
        last := words.getD 2 "" }
    else q
  else if words.length = 2 then
    if hasPatronymicSuffix sufs (words.getD 1 "") then
      { q with first := words.getD 0 "", middle := words.getD 1 "", last := "" }
    else
      { q with
        first := words.getD 0 ""
        middle := ""
        last := words.getD 1 "" }
  else q

/-- `adjust_russian_parsing` (russian.py lines 146-238). -/
def adjustRussianParsing (p : ParsedName) (name : String) : ParsedName :=
  if isCyrillicText name then
    patronymicOverride cyrillicPatronymicSuffixes
      (match findRussianParticleFrom 0 (pyWords name) with
        | some i => splitAtParticle p (pyWords name) i
        | none => p)
      (pyWords name)
  else
    if 3 ≤ (pyWords name).length then
      if (pyWords name).length = 3 ∧
          hasPatronymicSuffix romanPatronymicSuffixes ((pyWords name).getD 1 "") then
        { particleSplit russianParticles p (pyWords name) with
          first := (pyWords name).getD 0 "",
          middle := (pyWords name).getD 1 "",
          last := (pyWords name).getD 2 "" }
      else particleSplit russianParticles p (pyWords name)
    else if (pyWords name).length = 2 then
      if hasPatronymicSuffix romanPatronymicSuffixes ((pyWords name).getD 1 "") then
        { p with
          first := (pyWords name).getD 0 ""
          middle := (pyWords name).getD 1 ""
          last := "" }
      else
        { p with
          first := (pyWords name).getD 0 ""
          middle := ""
          last := (pyWords name).getD 1 "" }
    else p

/-- The character-count dispatch of the Chinese-script branch of
`adjust_chinese_parsing` (mandarin.py lines 645-673). -/
def chineseCharSplit (chineseSurnames : List String) (cs : List Char)
    (p : ParsedName) : ParsedName :=
  if cs.length = 2 then
    { p with
      last := String.singleton (cs.getD 0 ' ')
      first := String.singleton (cs.getD 1 ' ')
      middle := "" }
  else if cs.length = 3 then
    if String.singleton (cs.getD 0 ' ') ∈ chineseSurnames then
      { p with
        last := String.singleton (cs.getD 0 ' ')
        first := ⟨cs.drop 1⟩
        middle := "" }
    else
      { p with
        last := ⟨cs.take 2⟩
        first := String.singleton (cs.getD 2 ' ')
        middle := "" }
  else if cs.length = 4 then
    { p with last := ⟨cs.take 2⟩, first := ⟨cs.drop 2⟩, middle := "" }
  else if 5 ≤ cs.length then
    { p with last := ⟨cs.take 2⟩, first := ⟨cs.drop 2⟩, middle := "" }
  else p

/-- The romanized branch of `adjust_chinese_parsing` (mandarin.py lines
674-760), applied to the honorific-filtered word list. -/
def romanizedChineseSplit (romanizedSurnames : List String)
    (words : List String) (p : ParsedName) : ParsedName :=
  if words.length = 2 then
    if lowerStr (words.getD 0 "") ∈ romanizedSurnames then
      { p with last := words.getD 0 "", first := words.getD 1 "", middle := "" }
    else if lowerStr (words.getD 1 "") ∈ romanizedSurnames then
      { p with first := words.getD 0 "", last := words.getD 1 "", middle := "" }
    else
      { p with first := words.getD 0 "", last := words.getD 1 "", middle := "" }
  else if words.length = 3 then
    if lowerStr (words.getD 0 "") ∈ romanizedSurnames then
      { p with
        last := words.getD 0 ""
        first := joinWords (words.drop 1)
        middle := "" }
    else
      { p with
        first := words.getD 0 ""
        middle := words.getD 1 ""
        last := words.getD 2 "" }
  else p

/-- `adjust_chinese_parsing` (mandarin.py lines 637-760).  The three large
per-language data tables (`CHINESE_SURNAMES`, `ROMANIZED_SURNAMES`,
`CHINESE_HONORIFICS`) are read-only reference data (spec §1) and are taken
as parameters. -/
def adjustChineseParsing (chineseSurnames romanizedSurnames chineseHonorifics :
    List String) (p : ParsedName) (name : String) : ParsedName :=
  if isChineseText name then
    chineseCharSplit chineseSurnames (name.data.filter isChineseChar) p
  else
    romanizedChineseSplit romanizedSurnames
      ((pyWords name).filter (fun w => !(chineseHonorifics.contains (lowerStr w)))) p

/-- The language dispatch of `segment_name` (matcher.py lines 240-259). -/
def segmentAdjust (chineseSurnames romanizedSurnames chineseHonorifics : List String)
    (lang : Language) (p : ParsedName) (cleaned : String) : ParsedName :=
  match lang with
  | Language.german => adjustGermanParsing p cleaned
  | Language.french => adjustFrenchParsing p cleaned
  | Language.italian => adjustItalianParsing p cleaned
  | Language.spanish => adjustSpanishParsing p cleaned
  | Language.portuguese => adjustPortugueseParsing p cleaned
  | Language.arabic => adjustArabicParsing p cleaned
  | Language.russian => adjustRussianParsing p cleaned
  | Language.mandarin =>
    adjustChineseParsing chineseSurnames romanizedSurnames chineseHonorifics p cleaned
  | Language.english => adjustEnglishParsing p cleaned

/-- `segment_name` (matcher.py lines 227-269), with the language supplied
(covering whatever `detect_language` returns) and the external
`nameparser.HumanName` parser abstracted as `parser`. -/
def segmentName (honorifics : List String) (parser : String → ParsedName)
    (chineseSurnames romanizedSurnames chineseHonorifics : List String)
    (lang : Language) (name : String) : NameComponents :=
  { first := trimStr (segmentAdjust chineseSurnames romanizedSurnames
      chineseHonorifics lang (parser (stripHonorifics honorifics name))
      (stripHonorifics honorifics name)).first,
    middle := trimStr (segmentAdjust chineseSurnames romanizedSurnames
      chineseHonorifics lang (parser (stripHonorifics honorifics name))
      (stripHonorifics honorifics name)).middle,
    last := trimStr (segmentAdjust chineseSurnames romanizedSurnames
      chineseHonorifics lang (parser (stripHonorifics honorifics name))
      (stripHonorifics honorifics name)).last,
    title := trimStr (segmentAdjust chineseSurnames romanizedSurnames
      chineseHonorifics lang (parser (stripHonorifics honorifics name))
      (stripHonorifics honorifics name)).title,
    suffix := trimStr (segmentAdjust chineseSurnames romanizedSurnames
      chineseHonorifics lang (parser (stripHonorifics honorifics name))
      (stripHonorifics honorifics name)).suffix,
    original := name, language := lang }

/-- Modelled from the spec: the external `nameparser.HumanName` parser is
not repository code; the spec (§3 invariants, §7) requires segmentation of
empty/whitespace input to degrade to an all-empty result, so a parser is
assumed to produce all-empty components on whitespace-only input. -/
def WhitespaceParser (parser : String → ParsedName) : Prop :=
  ∀ s, (∀ c ∈ s.data, c.isWhitespace = true) → parser s = {}

lemma whitespace_char_ranges (c : Char) (h : c.isWhitespace = true) :
    isArabicChar c = false ∧ isCyrillicChar c = false ∧ isChineseChar c = false := by
  have hc : c = ' ' ∨ c = '\t' ∨ c = '\r' ∨ c = '\n' := by
    simpa [Char.isWhitespace, or_assoc] using h
  rcases hc with h | h | h | h <;> subst h <;> exact ⟨rfl, rfl, rfl⟩

lemma scripts_false (name : String)
    (h : ∀ c ∈ name.data, c.isWhitespace = true) :
    isArabicText name = false ∧ isCyrillicText name = false ∧
      isChineseText name = false := by
  refine ⟨?_, ?_, ?_⟩ <;>
    · simp only [isArabicText, isCyrillicText, isChineseText]
      rw [List.any_eq_false]
      intro c hc
      have := whitespace_char_ranges c (h c hc)
      simp only [this.1, this.2.1, this.2.2]
      tauto

lemma wordsAux_whitespace :
    ∀ l : List Char, (∀ c ∈ l, c.isWhitespace = true) → wordsAux l [] = [] := by
  intro l
  induction l with
  | nil => intro _; rfl
  | cons c rest ih =>
    intro h
    unfold wordsAux
    rw [if_pos (h c (List.mem_cons_self c rest)), if_pos rfl]
    exact ih (fun x hx => h x (List.mem_cons_of_mem c hx))

lemma pyWords_whitespace (s : String)
    (h : ∀ c ∈ s.data, c.isWhitespace = true) : pyWords s = [] := by
  unfold pyWords
  rw [wordsAux_whitespace s.data h]
  rfl

lemma stripHonorifics_whitespace (honorifics : List String) (name : String)
    (h : ∀ c ∈ name.data, c.isWhitespace = true) :
    stripHonorifics honorifics name = name := by
  unfold stripHonorifics
  rw [if_pos (by rw [pyWords_whitespace name h]; simp)]

lemma segmentAdjust_whitespace (cs rs ch : List String) (lang : Language)
    (p : ParsedName) (name : String)
    (h : ∀ c ∈ name.data, c.isWhitespace = true) :
    segmentAdjust cs rs ch lang p name = p := by
  have hw := pyWords_whitespace name h
  have hs := scripts_false name h
  cases lang
  case english => rfl
  case french =>
    show adjustFrenchParsing p name = p
    unfold adjustFrenchParsing
    rw [if_neg (by rw [hw]; simp)]
  case german =>
    show adjustGermanParsing p name = p
    unfold adjustGermanParsing
    rw [if_neg (by rw [hw]; simp)]
  case italian =>
    show adjustItalianParsing p name = p
    unfold adjustItalianParsing
    rw [if_neg (by rw [hw]; simp)]
  case portuguese =>
    show adjustPortugueseParsing p name = p
    unfold adjustPortugueseParsing
    rw [if_neg (by rw [hw]; simp)]
  case spanish =>
    show adjustSpanishParsing p name = p
    unfold adjustSpanishParsing
    rw [if_neg (by rw [hw]; simp)]
  case arabic =>
    show adjustArabicParsing p name = p
    unfold adjustArabicParsing
    rw [if_neg (by simp [hs.1]), if_neg (by rw [hw]; simp)]
  case russian =>
    show adjustRussianParsing p name = p
    unfold adjustRussianParsing
    rw [if_neg (by simp [hs.2.1]), if_neg (by rw [hw]; simp),
      if_neg (by rw [hw]; simp)]
  case mandarin =>
    show adjustChineseParsing cs rs ch p name = p
    unfold adjustChineseParsing
    rw [if_neg (by simp [hs.2.2]), hw]
    simp [romanizedChineseSplit]

/-! ### Claim C9: segmentation of empty/whitespace input -/

/-- C9: on input that is empty or entirely whitespace, `segment_name`
returns a `NameComponents` whose first, middle, last, title (prefix) and
suffix fields are all the empty string, for every language and for every
parser that degrades to an empty parse on whitespace input (the behaviour
of the external `nameparser` on such input, per the spec); being a total
function, the embedding also cannot fail. -/
theorem segmentName_whitespace (honorifics : List String)
    (parser : String → ParsedName) (cs rs ch : List String) (lang : Language)
    (name : String) (hname : ∀ c ∈ name.data, c.isWhitespace = true)
    (hparser : WhitespaceParser parser) :
    (segmentName honorifics parser cs rs ch lang name).first = "" ∧
    (segmentName honorifics parser cs rs ch lang name).middle = "" ∧
    (segmentName honorifics parser cs rs ch lang name).last = "" ∧
    (segmentName honorifics parser cs rs ch lang name).title = "" ∧
    (segmentName honorifics parser cs rs ch lang name).suffix = "" := by
  have hclean : stripHonorifics honorifics name = name :=
    stripHonorifics_whitespace honorifics name hname
  unfold segmentName
  rw [hclean, hparser name hname, segmentAdjust_whitespace cs rs ch lang _ name hname]
  exact ⟨rfl, rfl, rfl, rfl, rfl⟩

/-- C9 witness at a concrete whitespace input. -/
theorem segmentName_whitespace_witness :
    (segmentName [] (fun _ => {}) [] [] [] Language.english "  ").first = "" ∧
    (segmentName [] (fun _ => {}) [] [] [] Language.english "  ").middle = "" ∧
    (segmentName [] (fun _ => {}) [] [] [] Language.english "  ").last = "" ∧
    (segmentName [] (fun _ => {}) [] [] [] Language.english "  ").title = "" ∧
    (segmentName [] (fun _ => {}) [] [] [] Language.english "  ").suffix = "" :=
  segmentName_whitespace [] (fun _ => {}) [] [] [] Language.english "  "
    (by decide) (fun _ _ => rfl)

end HumanMatch
